import Mathlib

/-!
Shallow embedding of the OpenAuxilium request scheduler and session-lifecycle
manager, translated from src/server/AI/RunAILlamaCpp.js (class RunAILlamaCpp)
and the message route of src/server/API/chatRoutes.js.

Modelling conventions:
- Timestamps are naturals (milliseconds, like JS Date values).
- The JS Map from session id to session data is an association list
  (String × SessionData); Map.get / Map.set / Map.delete / Map.size become
  msGet / msSet / msErase / List.length.
- The inference engine is an oracle (Nat → String → Option String): given a
  context handle and the prompt text it returns some response, or none when
  the prompt call throws.  Context disposal is an oracle (Nat → Bool): true
  when context.dispose() succeeds.
- Fresh engine contexts are numbered by a nextCtx counter in the state.
- Promise resolution or rejection of a queued request becomes the
  (reqId, Except Err String) pair produced when the drain loop consumes it.
-/

namespace OpenAuxilium

/-- Errors thrown by RunAILlamaCpp and the HTTP route layer. -/
inductive Err where
  | notInitialized
  | capacityExceeded
  | duplicateId
  | createFailed
  | notFound
  | deleteFailed
  | engineFailure
  | invalidRole
  | invalidInput
deriving DecidableEq, Repr

/-- One entry of a session history: {role, content, timestamp}. -/
structure HistEntry where
  role : String
  content : String
  timestamp : Nat
deriving DecidableEq, Repr

/-- Per-session state stored in this.sessions:
{context, history, createdAt, lastActivity}.  The ctxId field is the engine
context handle. -/
structure SessionData where
  ctxId : Nat
  history : List HistEntry
  createdAt : Nat
  lastActivity : Nat
deriving DecidableEq, Repr

/-- One element of this.processingQueue: {sessionId, message, resolve, reject,
timestamp}.  The resolve/reject pair is identified by reqId. -/
structure QueuedReq where
  reqId : Nat
  sessionId : String
  message : String
  timestamp : Nat
deriving DecidableEq, Repr

/-- The mutable fields of a RunAILlamaCpp instance that the claims concern. -/
structure AIState where
  isInitialized : Bool
  sessions : List (String × SessionData)
  processingQueue : List QueuedReq
  currentlyProcessing : Bool
  maxConcurrentSessions : Nat
  systemRole : String
  nextCtx : Nat
deriving DecidableEq, Repr

/-- Map.get on the association list. -/
def msGet (k : String) : List (String × SessionData) → Option SessionData
  | [] => none
  | p :: t => if p.1 = k then some p.2 else msGet k t

/-- Map.set on the association list: replace in place, else append. -/
def msSet (k : String) (v : SessionData) :
    List (String × SessionData) → List (String × SessionData)
  | [] => [(k, v)]
  | p :: t => if p.1 = k then (k, v) :: t else p :: msSet k v t

/-- Map.delete on the association list. -/
def msErase (k : String) :
    List (String × SessionData) → List (String × SessionData)
  | [] => []
  | p :: t => if p.1 = k then t else p :: msErase k t

/-- The engine oracle: context handle and prompt text to optional response;
none models a throw from contextHandle.prompt. -/
def EngineOracle := Nat → String → Option String

/-- createSession resolves the id by `sessionId || uuidv4()`: a missing OR
empty (falsy) supplied id is replaced by the generated one. -/
def resolveId (optId : Option String) (genId : String) : String :=
  match optId with
  | some s => if s = "" then genId else s
  | none => genId

/-- The session record stored on successful creation (lines 70-77): a fresh
context, empty history, createdAt and lastActivity both the creation time. -/
def freshSession (ctx now : Nat) : SessionData :=
  { ctxId := ctx, history := [], createdAt := now, lastActivity := now }

/-- createSession(sessionId = null) from RunAILlamaCpp.js lines 48-85.
genId stands for the uuidv4() draw, ctxOk for whether
this.model.createContext() succeeds, now for the Date at the call. -/
def createSession (st : AIState) (optId : Option String) (genId : String)
    (ctxOk : Bool) (now : Nat) : AIState × Except Err String :=
  if st.isInitialized = false then (st, .error .notInitialized)
  else if st.maxConcurrentSessions ≤ st.sessions.length then
    (st, .error .capacityExceeded)
  else
    let id := resolveId optId genId
    if (msGet id st.sessions).isSome then (st, .error .duplicateId)
    else if ctxOk = false then (st, .error .createFailed)
    else
      ({ st with sessions := msSet id (freshSession st.nextCtx now) st.sessions,
                 nextCtx := st.nextCtx + 1 },
       .ok id)

/-- sendMessage(sessionId, message) lines 93-109: reject if the session is
unknown, otherwise push a queued request at the tail of the global FIFO.
The promise executor body is the push; draining is modelled separately. -/
def sendMessage (st : AIState) (reqId : Nat) (sessionId message : String)
    (now : Nat) : AIState × Except Err Unit :=
  if (msGet sessionId st.sessions).isNone then (st, .error .notFound)
  else
    ({ st with processingQueue :=
        st.processingQueue ++ [⟨reqId, sessionId, message, now⟩] },
     .ok ())

/-- Line 159: the prompt actually sent to the engine, built from the
process-wide system role read at processing time. -/
def reinforcedMessage (role msg : String) : String :=
  "System: " ++ role ++ "\n\nUser: " ++ msg

/-- A session after the user entry push of _processMessage lines 152-156:
only the history grows, by one user-role entry; lastActivity, createdAt and
the context are untouched. -/
def withUserEntry (sd : SessionData) (msg : String) (now : Nat) : SessionData :=
  { sd with history := sd.history ++ [⟨"user", msg, now⟩] }

/-- _processMessage(sessionId, message) lines 141-184.  On an unknown session
it throws NotFound without touching the engine.  Otherwise it pushes the user
entry, prompts the engine with the reinforced message: on failure the user
entry remains and lastActivity is untouched; on success the trimmed response
is appended and lastActivity updated. -/
def processMessage (e : EngineOracle) (now : Nat) (sessionId message : String)
    (st : AIState) : AIState × Except Err String :=
  match msGet sessionId st.sessions with
  | none => (st, .error .notFound)
  | some sd =>
    let sd1 := withUserEntry sd message now
    match e sd.ctxId (reinforcedMessage st.systemRole message) with
    | none =>
        ({ st with sessions := msSet sessionId sd1 st.sessions },
         .error .engineFailure)
    | some raw =>
        let resp := raw.trim
        let sd2 := { sd1 with
            history := sd1.history ++ [⟨"assistant", resp, now⟩],
            lastActivity := now }
        ({ st with sessions := msSet sessionId sd2 st.sessions }, .ok resp)

/-- The while loop of _processQueue lines 121-130: shift the head, process it,
resolve or reject that request, continue with the rest. -/
def drainLoop (e : EngineOracle) (now : Nat) :
    List QueuedReq → AIState → AIState × List (Nat × Except Err String)
  | [], st => (st, [])
  | r :: rest, st =>
      let step := processMessage e now r.sessionId r.message st
      let tail := drainLoop e now rest step.1
      (tail.1, (r.reqId, step.2) :: tail.2)

/-- _processQueue lines 114-133: return immediately when a drain is already
running or the queue is empty; otherwise raise the re-entrancy flag, drain the
whole queue head-to-tail, and lower the flag. -/
def processQueue (e : EngineOracle) (now : Nat) (st : AIState) :
    AIState × List (Nat × Except Err String) :=
  if st.currentlyProcessing = true ∨ st.processingQueue = [] then (st, [])
  else
    let d := drainLoop e now st.processingQueue
      { st with processingQueue := [], currentlyProcessing := true }
    ({ d.1 with currentlyProcessing := false }, d.2)

/-- deleteSession(sessionId) lines 206-225.  NotFound when absent; otherwise
context.dispose() runs first and a dispose failure is rethrown from the catch
block, so the sessions.delete line is only reached when dispose succeeds. -/
def deleteSession (st : AIState) (sessionId : String)
    (disposeOk : Nat → Bool) : AIState × Except Err Unit :=
  match msGet sessionId st.sessions with
  | none => (st, .error .notFound)
  | some sd =>
    if disposeOk sd.ctxId = false then (st, .error .deleteFailed)
    else ({ st with sessions := msErase sessionId st.sessions }, .ok ())

/-- updateSystemRole(newRole) lines 261-268: an empty (falsy) string throws
and leaves the role unchanged. -/
def updateSystemRole (st : AIState) (newRole : String) :
    AIState × Except Err Unit :=
  if newRole = "" then (st, .error .invalidRole)
  else ({ st with systemRole := newRole }, .ok ())

/-- getSystemRole() lines 274-276. -/
def getSystemRole (st : AIState) : String :=
  st.systemRole

/-- The staleness test of cleanupInactiveSessions line 287-288: the JS code
computes (now - lastActivity) / 60000 > maxAgeMinutes with exact rational
value on these integer inputs, which for the positive divisor 60000 is
equivalent to now - lastActivity > maxAgeMinutes * 60000. -/
def isStale (now maxAgeMinutes : Nat) (sd : SessionData) : Bool :=
  decide (maxAgeMinutes * 60000 < now - sd.lastActivity)

/-- cleanupInactiveSessions(maxAgeMinutes) lines 282-303: collect the ids of
all sessions older than the threshold, delete each in turn swallowing
individual failures, and return the number of ids collected. -/
def cleanupInactiveSessions (st : AIState) (maxAgeMinutes now : Nat)
    (disposeOk : Nat → Bool) : AIState × Nat :=
  let toDelete :=
    (st.sessions.filter (fun p => isStale now maxAgeMinutes p.2)).map
      (fun p => p.1)
  (toDelete.foldl (fun s id => (deleteSession s id disposeOk).1) st,
   toDelete.length)

/-- The POST /sessions/:sessionId/messages handler of chatRoutes.js lines
38-67: a missing or empty (falsy) message body is rejected with 400 before
sendMessage is ever invoked; otherwise the call is forwarded to sendMessage. -/
def routeSendMessage (st : AIState) (reqId : Nat) (sessionId : String)
    (message : Option String) (now : Nat) : AIState × Except Err Unit :=
  match message with
  | none => (st, .error .invalidInput)
  | some m =>
      if m = "" then (st, .error .invalidInput)
      else sendMessage st reqId sessionId m now

/-- An engine oracle whose prompt calls always succeed, with padding that
the trim step removes. -/
def eOK : EngineOracle := fun _ _ => some "  All good.  "

/-- An engine oracle whose prompt calls always throw. -/
def eFail : EngineOracle := fun _ _ => none

/-- Context disposal that always succeeds. -/
def dOK : Nat → Bool := fun _ => true

/-- Context disposal that always throws. -/
def dNone : Nat → Bool := fun _ => false

/-- A bare session used by the concrete scenarios. -/
def sdA : SessionData :=
  { ctxId := 0, history := [], createdAt := 0, lastActivity := 0 }

/-- A manager holding the single live session s1, idle, queue empty. -/
def stOne : AIState :=
  { isInitialized := true, sessions := [("s1", sdA)], processingQueue := [],
    currentlyProcessing := false, maxConcurrentSessions := 10,
    systemRole := "Be concise.", nextCtx := 1 }

/-- stOne with two requests already queued, in submission order 1 then 2. -/
def stTwoQueued : AIState :=
  { stOne with processingQueue := [⟨1, "s1", "hi", 2⟩, ⟨2, "s1", "again", 3⟩] }

/-- stOne at a ceiling of one live session: the store is full. -/
def stFull : AIState :=
  { stOne with maxConcurrentSessions := 1 }

/-- A manager with one stale session (idle for two hours) and one session
active one millisecond ago, sampled at now = 7200001. -/
def stAged : AIState :=
  { stOne with
      sessions :=
        [("old", { ctxId := 0, history := [], createdAt := 0,
                   lastActivity := 0 }),
         ("young", { ctxId := 1, history := [], createdAt := 0,
                     lastActivity := 7200000 })],
      nextCtx := 2 }

/-- Phase of one activation of the _processQueue drain: at the loop head
(ready) or suspended in the await of the engine prompt (busy). -/
inductive LanePhase where
  | ready
  | busy
deriving DecidableEq, Repr

/-- The interleaving-level view of the scheduler used for the concurrency
claim: the global FIFO, the currentlyProcessing re-entrancy flag, and the
multiset of currently active _processQueue activations.  An activation in
phase busy is an engine invocation in flight. -/
structure LaneState where
  queue : List Nat
  currentlyProcessing : Bool
  lanes : List LanePhase
deriving DecidableEq, Repr

/-- The state on construction (lines 15-16): empty queue, flag down. -/
def laneInit : LaneState :=
  { queue := [], currentlyProcessing := false, lanes := [] }

/-- Atomic steps of the JS event loop relevant to the scheduler.  push is a
sendMessage enqueue; enterDrain is a _processQueue call observing the flag
down (a call observing it up returns at line 115-117 and changes nothing, so
it has no step); callEngine is a loop iteration shifting the FIFO head and
entering the engine await; engineReturn is the await resuming; exitDrain is
the loop observing an empty queue and lowering the flag.  The guard of
enterDrain is exactly the line 115 check; nothing else restricts how many
activations may exist, so exclusiveness must be proved, not assumed. -/
inductive LaneStep : LaneState → LaneState → Prop where
  | push (s : LaneState) (r : Nat) :
      LaneStep s { s with queue := s.queue ++ [r] }
  | enterDrain (s : LaneState) :
      s.currentlyProcessing = false → s.queue ≠ [] →
      LaneStep s { s with currentlyProcessing := true,
                          lanes := LanePhase.ready :: s.lanes }
  | callEngine (s : LaneState) (r : Nat) (rest : List Nat)
      (pre post : List LanePhase) :
      s.lanes = pre ++ LanePhase.ready :: post →
      s.queue = r :: rest →
      LaneStep s { s with queue := rest,
                          lanes := pre ++ LanePhase.busy :: post }
  | engineReturn (s : LaneState) (pre post : List LanePhase) :
      s.lanes = pre ++ LanePhase.busy :: post →
      LaneStep s { s with lanes := pre ++ LanePhase.ready :: post }
  | exitDrain (s : LaneState) (pre post : List LanePhase) :
      s.lanes = pre ++ LanePhase.ready :: post →
      s.queue = [] →
      LaneStep s { s with lanes := pre ++ post,
                          currentlyProcessing := false }

/-- States reachable from the freshly constructed scheduler. -/
def LaneReachable (s : LaneState) : Prop :=
  Relation.ReflTransGen LaneStep laneInit s

/-- The inductive invariant: the flag down means no activation exists, and
at most one activation ever exists. -/
def LaneInv (s : LaneState) : Prop :=
  (s.currentlyProcessing = false → s.lanes = []) ∧ s.lanes.length ≤ 1

theorem laneInv_init : LaneInv laneInit := by
  constructor
  · intro _; rfl
  · simp [laneInit]

theorem laneInv_step {s t : LaneState} (hs : LaneInv s) (h : LaneStep s t) :
    LaneInv t := by
  obtain ⟨hflag, hlen⟩ := hs
  cases h with
  | push r =>
      exact ⟨hflag, hlen⟩
  | enterDrain hf hq =>
      refine ⟨by simp, ?_⟩
      have : s.lanes = [] := hflag hf
      simp [this]
  | callEngine r rest pre post hl hq =>
      constructor
      · intro hf
        have := hflag hf
        rw [hl] at this
        simp at this
      · have := hlen
        rw [hl] at this
        simpa [List.length_append] using this
  | engineReturn pre post hl =>
      constructor
      · intro hf
        have := hflag hf
        rw [hl] at this
        simp at this
      · have := hlen
        rw [hl] at this
        simpa [List.length_append] using this
  | exitDrain pre post hl hq =>
      have hlen2 := hlen
      rw [hl] at hlen2
      have hz : pre.length = 0 ∧ post.length = 0 := by
        simp only [List.length_append, List.length_cons] at hlen2
        omega
      constructor
      · intro _
        simp [List.length_eq_zero.mp hz.1, List.length_eq_zero.mp hz.2]
      · simp [List.length_eq_zero.mp hz.1, List.length_eq_zero.mp hz.2]

theorem laneInv_reachable {s : LaneState} (h : LaneReachable s) : LaneInv s := by
  induction h with
  | refl => exact laneInv_init
  | tail _ hstep ih => exact laneInv_step ih hstep

theorem mem_msErase_of_ne {p : String × SessionData} {j : String}
    {m : List (String × SessionData)} (hp : p ∈ m) (hne : p.1 ≠ j) :
    p ∈ msErase j m := by
  induction m with
  | nil => cases hp
  | cons q t ih =>
    rcases List.mem_cons.mp hp with hq | ht
    · subst hq
      simp [msErase, hne]
    · by_cases hj : q.1 = j
      · simpa [msErase, hj] using ht
      · simp only [msErase, if_neg hj, List.mem_cons]
        exact Or.inr (ih ht)

theorem msGet_msErase_none {k j : String} {m : List (String × SessionData)}
    (h : msGet k m = none) : msGet k (msErase j m) = none := by
  induction m with
  | nil => rfl
  | cons q t ih =>
    by_cases hq : q.1 = k
    · simp [msGet, hq] at h
    · simp only [msGet, if_neg hq] at h
      by_cases hj : q.1 = j
      · simpa [msErase, hj] using h
      · simp only [msErase, if_neg hj, msGet, if_neg hq]
        exact ih h

theorem msGet_eq_none_of_not_mem_keys {k : String}
    {m : List (String × SessionData)} (h : k ∉ m.map Prod.fst) :
    msGet k m = none := by
  induction m with
  | nil => rfl
  | cons q t ih =>
    simp only [List.map_cons, List.mem_cons] at h
    push_neg at h
    have hq : ¬ q.1 = k := fun hh => h.1 hh.symm
    simp only [msGet, if_neg hq]
    exact ih h.2

theorem msGet_msErase_self {k : String} {m : List (String × SessionData)}
    (h : (m.map Prod.fst).Nodup) : msGet k (msErase k m) = none := by
  induction m with
  | nil => rfl
  | cons q t ih =>
    simp only [List.map_cons, List.nodup_cons] at h
    by_cases hq : q.1 = k
    · subst hq
      simp only [msErase, if_pos rfl]
      exact msGet_eq_none_of_not_mem_keys h.1
    · simp only [msErase, if_neg hq, msGet, if_neg hq]
      exact ih h.2

theorem msErase_keys_sublist (j : String) (m : List (String × SessionData)) :
    ((msErase j m).map Prod.fst).Sublist (m.map Prod.fst) := by
  induction m with
  | nil => simp [msErase]
  | cons q t ih =>
    by_cases hq : q.1 = j
    · simp only [msErase, if_pos hq, List.map_cons]
      exact (List.sublist_cons_self q.1 (t.map Prod.fst))
    · simp only [msErase, if_neg hq, List.map_cons]
      exact List.Sublist.cons₂ q.1 ih

theorem msErase_keys_nodup {j : String} {m : List (String × SessionData)}
    (h : (m.map Prod.fst).Nodup) : ((msErase j m).map Prod.fst).Nodup :=
  List.Nodup.sublist (msErase_keys_sublist j m) h

theorem keys_nodup_inj {m : List (String × SessionData)}
    (h : (m.map Prod.fst).Nodup) {p q : String × SessionData}
    (hp : p ∈ m) (hq : q ∈ m) (hk : p.1 = q.1) : p = q := by
  induction m with
  | nil => cases hp
  | cons a t ih =>
    simp only [List.map_cons, List.nodup_cons] at h
    rcases List.mem_cons.mp hp with hp1 | hp2 <;>
      rcases List.mem_cons.mp hq with hq1 | hq2
    · rw [hp1, hq1]
    · subst hp1
      exact absurd (hk ▸ List.mem_map_of_mem Prod.fst hq2) h.1
    · subst hq1
      exact absurd (hk ▸ List.mem_map_of_mem Prod.fst hp2) h.1
    · exact ih h.2 hp2 hq2

theorem deleteSession_sessions_cases (st : AIState) (id : String)
    (d : Nat → Bool) :
    (deleteSession st id d).1 = st ∨
    (deleteSession st id d).1
      = { st with sessions := msErase id st.sessions } := by
  cases hm : msGet id st.sessions with
  | none => exact Or.inl (by simp [deleteSession, hm])
  | some sd =>
    by_cases hd : d sd.ctxId = false
    · exact Or.inl (by simp [deleteSession, hm, hd])
    · exact Or.inr (by simp [deleteSession, hm, hd])

theorem processMessage_queue (e : EngineOracle) (now : Nat)
    (sid msg : String) (st : AIState) :
    (processMessage e now sid msg st).1.processingQueue
      = st.processingQueue := by
  cases hm : msGet sid st.sessions with
  | none => simp [processMessage, hm]
  | some sd =>
    cases he : e sd.ctxId (reinforcedMessage st.systemRole msg) <;>
      simp [processMessage, hm, he]

theorem drainLoop_results_fst (e : EngineOracle) (now : Nat) :
    ∀ (reqs : List QueuedReq) (st : AIState),
      ((drainLoop e now reqs st).2).map Prod.fst
        = reqs.map QueuedReq.reqId := by
  intro reqs
  induction reqs with
  | nil => intro st; rfl
  | cons r rest ih => intro st; simp [drainLoop, ih]

theorem drainLoop_queue (e : EngineOracle) (now : Nat) :
    ∀ (reqs : List QueuedReq) (st : AIState),
      (drainLoop e now reqs st).1.processingQueue = st.processingQueue := by
  intro reqs
  induction reqs with
  | nil => intro st; rfl
  | cons r rest ih =>
      intro st
      simp [drainLoop, ih, processMessage_queue]

/-- C1: FIFO ordering.  From an idle manager (the re-entrancy flag down),
_processQueue drains the whole global FIFO and delivers exactly one result
per queued request, tagged in submission order: the sequence of resolved
request ids equals the queue order, for any mix of sessions and any engine,
and the queue ends empty.  The drain loop is sequential, so each request is
fully processed before the next one starts. -/
theorem fifo_order (e : EngineOracle) (now : Nat) (st : AIState)
    (h : st.currentlyProcessing = false) :
    ((processQueue e now st).2).map Prod.fst
        = st.processingQueue.map QueuedReq.reqId
    ∧ (processQueue e now st).1.processingQueue = [] := by
  by_cases hq : st.processingQueue = []
  · simp [processQueue, h, hq]
  · constructor
    · simp [processQueue, h, hq, drainLoop_results_fst]
    · simp [processQueue, h, hq, drainLoop_queue]

/-- C1 witness: the FIFO theorem applied to a concrete two-request queue. -/
theorem fifo_order_witness :
    ((processQueue eOK 5 stTwoQueued).2).map Prod.fst
        = stTwoQueued.processingQueue.map QueuedReq.reqId
    ∧ (processQueue eOK 5 stTwoQueued).1.processingQueue = [] :=
  fifo_order eOK 5 stTwoQueued rfl

/-- C2 counterexample: with a context whose release throws, deleteSession on
the live id s1 fails and the session is NOT removed from the store, refuting
the removed-regardless reading at this concrete input. -/
theorem deleteSession_failure_keeps_entry :
    deleteSession stOne "s1" dNone = (stOne, Except.error Err.deleteFailed)
    ∧ msGet "s1" (deleteSession stOne "s1" dNone).1.sessions = some sdA := by
  constructor <;> rfl

/-- C2 amended: deleteSession on a live id removes the store entry exactly
when the context release succeeds; when the release throws, the failure
propagates to the caller and the session remains in the store. -/
theorem deleteSession_release_gates_removal (st : AIState) (sid : String)
    (d : Nat → Bool) (sd : SessionData)
    (hsd : msGet sid st.sessions = some sd) :
    (d sd.ctxId = true →
      deleteSession st sid d
        = ({ st with sessions := msErase sid st.sessions }, Except.ok ()))
    ∧ (d sd.ctxId = false →
      deleteSession st sid d = (st, Except.error Err.deleteFailed)) := by
  constructor <;> intro hd <;> simp [deleteSession, hsd, hd]

/-- C2 witness: the amended deletion theorem at the concrete one-session
manager with a successful release. -/
theorem deleteSession_release_gates_removal_witness :
    (dOK sdA.ctxId = true →
      deleteSession stOne "s1" dOK
        = ({ stOne with sessions := msErase "s1" stOne.sessions },
           Except.ok ()))
    ∧ (dOK sdA.ctxId = false →
      deleteSession stOne "s1" dOK = (stOne, Except.error Err.deleteFailed)) :=
  deleteSession_release_gates_removal stOne "s1" dOK sdA rfl

/-- C3: capacity enforcement.  On an initialized manager, createSession fails
with the capacity error exactly when the live-session count has reached the
ceiling; that failure leaves the state untouched; and below the ceiling a
create with a free id and a working context allocator succeeds — so after
deleting one session from a full store a retried create goes through. -/
theorem capacity_enforcement (st : AIState) (optId : Option String)
    (genId : String) (ctxOk : Bool) (now : Nat)
    (hinit : st.isInitialized = true) :
    ((createSession st optId genId ctxOk now).2
        = Except.error Err.capacityExceeded
      ↔ st.maxConcurrentSessions ≤ st.sessions.length)
    ∧ (st.maxConcurrentSessions ≤ st.sessions.length →
        createSession st optId genId ctxOk now
          = (st, Except.error Err.capacityExceeded))
    ∧ (st.sessions.length < st.maxConcurrentSessions →
        msGet (resolveId optId genId) st.sessions = none → ctxOk = true →
        (createSession st optId genId ctxOk now).2
          = Except.ok (resolveId optId genId)) := by
  by_cases hcap : st.maxConcurrentSessions ≤ st.sessions.length
  · have hres : createSession st optId genId ctxOk now
        = (st, Except.error Err.capacityExceeded) := by
      simp [createSession, hinit, hcap]
    exact ⟨by simp [hres, hcap], fun _ => hres,
           fun hlt => absurd hcap (Nat.not_le.mpr hlt)⟩
  · refine ⟨⟨?_, fun hc => absurd hc hcap⟩, fun hc => absurd hc hcap, ?_⟩
    · intro hres
      exfalso
      by_cases hdup : (msGet (resolveId optId genId) st.sessions).isSome
      · simp [createSession, hinit, hcap, hdup] at hres
      · by_cases hctx : ctxOk = false
        · simp [createSession, hinit, hcap, hdup, hctx] at hres
        · simp [createSession, hinit, hcap, hdup, hctx] at hres
    · intro _ hfree hctx
      simp [createSession, hinit, hcap, hfree, hctx]

/-- C3 witness: at a ceiling of one with one live session, the capacity
theorem instantiated: the second create fails with the capacity error and
leaves the state unchanged. -/
theorem capacity_enforcement_witness :
    (((createSession stFull (some "s2") "g" true 9).2
        = Except.error Err.capacityExceeded)
      ↔ stFull.maxConcurrentSessions ≤ stFull.sessions.length)
    ∧ (stFull.maxConcurrentSessions ≤ stFull.sessions.length →
        createSession stFull (some "s2") "g" true 9
          = (stFull, Except.error Err.capacityExceeded))
    ∧ (stFull.sessions.length < stFull.maxConcurrentSessions →
        msGet (resolveId (some "s2") "g") stFull.sessions = none →
        (true : Bool) = true →
        (createSession stFull (some "s2") "g" true 9).2
          = Except.ok (resolveId (some "s2") "g")) :=
  capacity_enforcement stFull (some "s2") "g" true 9 rfl

/-- C4: a queued request whose session was deleted before draining fails with
NotFound and contributes nothing else: the drain state is untouched by it —
the equality holds for every engine oracle, so no engine call and no freed
context are involved — and the remaining queue is drained exactly as if the
dead request were absent, so later requests of live sessions are unaffected. -/
theorem dead_session_request_isolated (e : EngineOracle) (now : Nat)
    (a : QueuedReq) (rest : List QueuedReq) (st : AIState)
    (ha : msGet a.sessionId st.sessions = none) :
    drainLoop e now (a :: rest) st
      = ((drainLoop e now rest st).1,
         (a.reqId, Except.error Err.notFound)
           :: (drainLoop e now rest st).2) := by
  simp [drainLoop, processMessage, ha]

/-- C4 witness: a two-request drain where the first names a session absent
from the store and the second a live one. -/
theorem dead_session_request_isolated_witness :
    drainLoop eOK 5 [⟨1, "ghost", "x", 0⟩, ⟨2, "s1", "y", 0⟩] stOne
      = ((drainLoop eOK 5 [⟨2, "s1", "y", 0⟩] stOne).1,
         (1, Except.error Err.notFound)
           :: (drainLoop eOK 5 [⟨2, "s1", "y", 0⟩] stOne).2) :=
  dead_session_request_isolated eOK 5 ⟨1, "ghost", "x", 0⟩
    [⟨2, "s1", "y", 0⟩] stOne rfl

/-- C6 counterexample: a supplied empty-string id is falsy in the source
(sessionId || uuidv4() at line 57), so createSession succeeds but returns the
generated id and not the supplied one, refuting returns-the-supplied-id. -/
theorem create_empty_supplied_id_ignored :
    (createSession stOne (some "") "gen0" true 9).2 = Except.ok "gen0"
    ∧ ("gen0" : String) ≠ "" := by
  exact ⟨rfl, by decide⟩

/-- C6 amended: with capacity available, createSession with a non-empty
supplied id fails with the duplicate error and leaves the state unchanged
when the id is live; otherwise it stores a session with a fresh context,
empty history and createdAt = lastActivity = now under that id and returns
it; with no supplied id the generated id, when not live, is stored and
returned.  A supplied empty string is treated as absent. -/
theorem createSession_id_semantics (st : AIState) (s genId : String)
    (now : Nat) (hinit : st.isInitialized = true)
    (hcap : st.sessions.length < st.maxConcurrentSessions) (hs : s ≠ "") :
    ((msGet s st.sessions).isSome = true → ∀ ctxOk : Bool,
        createSession st (some s) genId ctxOk now
          = (st, Except.error Err.duplicateId))
    ∧ (msGet s st.sessions = none →
        createSession st (some s) genId true now
          = ({ st with
                sessions := msSet s (freshSession st.nextCtx now) st.sessions,
                nextCtx := st.nextCtx + 1 },
             Except.ok s))
    ∧ (msGet genId st.sessions = none →
        (createSession st none genId true now).2 = Except.ok genId) := by
  have hcap2 : ¬ st.maxConcurrentSessions ≤ st.sessions.length :=
    Nat.not_le.mpr hcap
  refine ⟨fun hdup ctxOk => ?_, fun hfree => ?_, fun hfree => ?_⟩
  · simp [createSession, hinit, hcap2, resolveId, hs, hdup]
  · simp [createSession, hinit, hcap2, resolveId, hs, hfree]
  · simp [createSession, hinit, hcap2, resolveId, hfree]

/-- C6 witness: the id semantics theorem at the one-session manager, for the
free supplied id s2 and free generated id g. -/
theorem createSession_id_semantics_witness :
    ((msGet "s2" stOne.sessions).isSome = true → ∀ ctxOk : Bool,
        createSession stOne (some "s2") "g" ctxOk 9
          = (stOne, Except.error Err.duplicateId))
    ∧ (msGet "s2" stOne.sessions = none →
        createSession stOne (some "s2") "g" true 9
          = ({ stOne with
                sessions :=
                  msSet "s2" (freshSession stOne.nextCtx 9) stOne.sessions,
                nextCtx := stOne.nextCtx + 1 },
             Except.ok "s2"))
    ∧ (msGet "g" stOne.sessions = none →
        (createSession stOne none "g" true 9).2 = Except.ok "g") :=
  createSession_id_semantics stOne "s2" "g" 9 rfl (by decide) (by decide)

/-- C7 counterexample: sendMessage itself performs no message validation: an
empty message for a live session is accepted and enqueued at the FIFO tail,
refuting the claim that sendMessage rejects empty messages. -/
theorem sendMessage_accepts_empty :
    sendMessage stOne 7 "s1" "" 9
      = ({ stOne with processingQueue := [⟨7, "s1", "", 9⟩] },
         Except.ok ()) := by
  rfl

/-- C7 amended: the non-empty validation lives in the HTTP message route, not
in sendMessage: a missing or empty message body is rejected with the
invalid-input error before sendMessage runs and nothing is enqueued, while a
non-empty message for a live session is enqueued at the tail of the global
FIFO. -/
theorem route_message_validation (st : AIState) (reqId : Nat) (sid : String)
    (now : Nat) :
    (routeSendMessage st reqId sid none now
        = (st, Except.error Err.invalidInput))
    ∧ (routeSendMessage st reqId sid (some "") now
        = (st, Except.error Err.invalidInput))
    ∧ (∀ m : String, m ≠ "" → (msGet sid st.sessions).isSome = true →
        routeSendMessage st reqId sid (some m) now
          = ({ st with processingQueue :=
                st.processingQueue ++ [⟨reqId, sid, m, now⟩] },
             Except.ok ())) := by
  refine ⟨rfl, by simp [routeSendMessage], ?_⟩
  intro m hm hsid
  have : (msGet sid st.sessions).isNone = false := by
    simp [Option.isNone_eq_false_iff, Option.isSome_iff_exists] at hsid ⊢
    exact hsid
  simp [routeSendMessage, hm, sendMessage, this]

/-- C7 witness: the route validation theorem at the one-session manager,
instantiated for a missing body, an empty message and the message hello. -/
theorem route_message_validation_witness :
    (routeSendMessage stOne 7 "s1" none 9
        = (stOne, Except.error Err.invalidInput))
    ∧ (routeSendMessage stOne 7 "s1" (some "") 9
        = (stOne, Except.error Err.invalidInput))
    ∧ (routeSendMessage stOne 7 "s1" (some "hello") 9
        = ({ stOne with processingQueue :=
              stOne.processingQueue ++ [⟨7, "s1", "hello", 9⟩] },
           Except.ok ())) :=
  ⟨(route_message_validation stOne 7 "s1" 9).1,
   (route_message_validation stOne 7 "s1" 9).2.1,
   (route_message_validation stOne 7 "s1" 9).2.2 "hello" (by decide)
     (by decide)⟩

/-- C8: the system role setter rejects the empty (falsy) string leaving the
role unchanged; after a successful update getSystemRole returns the new
role; and a request processed after the update — whenever it was queued,
since queued requests carry no role — reaches the engine with the prompt
built from the new role, because _processMessage reads the process-wide role
at processing time. -/
theorem system_role_semantics (st : AIState) (r sid msg : String)
    (now : Nat) (e : EngineOracle) (sd : SessionData) (hr : r ≠ "")
    (hsd : msGet sid st.sessions = some sd) :
    (updateSystemRole st "" = (st, Except.error Err.invalidRole))
    ∧ getSystemRole (updateSystemRole st r).1 = r
    ∧ (processMessage e now sid msg (updateSystemRole st r).1).2
        = (match e sd.ctxId (reinforcedMessage r msg) with
           | none => Except.error Err.engineFailure
           | some raw => Except.ok raw.trim) := by
  refine ⟨by simp [updateSystemRole],
          by simp [updateSystemRole, hr, getSystemRole], ?_⟩
  have h1 : (updateSystemRole st r).1 = { st with systemRole := r } := by
    simp [updateSystemRole, hr]
  rw [h1]
  cases he : e sd.ctxId (reinforcedMessage r msg) <;>
    simp [processMessage, hsd, he]

/-- C8 witness: the role semantics theorem at the one-session manager with
the new role Pirate mode. -/
theorem system_role_semantics_witness :
    (updateSystemRole stOne "" = (stOne, Except.error Err.invalidRole))
    ∧ getSystemRole (updateSystemRole stOne "Pirate mode.").1 = "Pirate mode."
    ∧ (processMessage eOK 4 "s1" "hi"
          (updateSystemRole stOne "Pirate mode.").1).2
        = (match eOK sdA.ctxId (reinforcedMessage "Pirate mode." "hi") with
           | none => Except.error Err.engineFailure
           | some raw => Except.ok raw.trim) :=
  system_role_semantics stOne "Pirate mode." "s1" "hi" 4 eOK sdA (by decide)
    rfl

/-- C9: at most one inference call is in flight at any time: in every state
reachable from the constructed scheduler, at most one drain activation
exists — the execution lane never runs two drains concurrently — and hence
the count of activations suspended inside the engine await, the number of
concurrently active engine invocations, never exceeds one. -/
theorem at_most_one_in_flight (s : LaneState) (h : LaneReachable s) :
    s.lanes.length ≤ 1 ∧ s.lanes.count LanePhase.busy ≤ 1 := by
  have hinv := laneInv_reachable h
  exact ⟨hinv.2, le_trans (List.count_le_length _ _) hinv.2⟩

/-- C9 witness: the in-flight bound at the freshly constructed scheduler. -/
theorem at_most_one_in_flight_witness :
    laneInit.lanes.length ≤ 1 ∧ laneInit.lanes.count LanePhase.busy ≤ 1 :=
  at_most_one_in_flight laneInit Relation.ReflTransGen.refl

/-- C10: when the engine prompt throws during a turn, the turn is applied
only partially: the user entry pushed before the call stays in the history
with no paired assistant entry, lastActivity keeps its old value, and the
queued caller is rejected with the engine failure. -/
theorem engine_failure_partial_turn (e : EngineOracle) (now : Nat)
    (sid msg : String) (st : AIState) (sd : SessionData)
    (hsd : msGet sid st.sessions = some sd)
    (hfail : e sd.ctxId (reinforcedMessage st.systemRole msg) = none) :
    processMessage e now sid msg st
      = ({ st with
            sessions := msSet sid (withUserEntry sd msg now) st.sessions },
         Except.error Err.engineFailure)
    ∧ ∀ rid : Nat, (drainLoop e now [⟨rid, sid, msg, now⟩] st).2
        = [(rid, Except.error Err.engineFailure)] := by
  constructor
  · simp [processMessage, hsd, hfail]
  · intro rid
    simp [drainLoop, processMessage, hsd, hfail]

/-- C10 witness: the partial-turn theorem at the one-session manager with an
engine that always throws. -/
theorem engine_failure_partial_turn_witness :
    processMessage eFail 4 "s1" "hi" stOne
      = ({ stOne with
            sessions := msSet "s1" (withUserEntry sdA "hi" 4) stOne.sessions },
         Except.error Err.engineFailure)
    ∧ ∀ rid : Nat, (drainLoop eFail 4 [⟨rid, "s1", "hi", 4⟩] stOne).2
        = [(rid, Except.error Err.engineFailure)] :=
  engine_failure_partial_turn eFail 4 "s1" "hi" stOne sdA rfl rfl

theorem deleteSession_preserves_mem {p : String × SessionData}
    (st : AIState) (id : String) (d : Nat → Bool)
    (hp : p ∈ st.sessions) (hne : p.1 ≠ id) :
    p ∈ (deleteSession st id d).1.sessions := by
  rcases deleteSession_sessions_cases st id d with h | h
  · rw [h]; exact hp
  · rw [h]; exact mem_msErase_of_ne hp hne

theorem deleteSession_preserves_none {k : String}
    (st : AIState) (id : String) (d : Nat → Bool)
    (h : msGet k st.sessions = none) :
    msGet k (deleteSession st id d).1.sessions = none := by
  rcases deleteSession_sessions_cases st id d with hc | hc
  · rw [hc]; exact h
  · rw [hc]; exact msGet_msErase_none h

theorem deleteSession_preserves_nodup (st : AIState) (id : String)
    (d : Nat → Bool) (h : (st.sessions.map Prod.fst).Nodup) :
    (((deleteSession st id d).1.sessions).map Prod.fst).Nodup := by
  rcases deleteSession_sessions_cases st id d with hc | hc
  · rw [hc]; exact h
  · rw [hc]; exact msErase_keys_nodup h

theorem deleteSession_self_none (st : AIState) (id : String) (d : Nat → Bool)
    (hd : ∀ c, d c = true) (h : (st.sessions.map Prod.fst).Nodup) :
    msGet id (deleteSession st id d).1.sessions = none := by
  cases hm : msGet id st.sessions with
  | none => simp [deleteSession, hm]
  | some sd =>
    have hds : (deleteSession st id d).1.sessions = msErase id st.sessions := by
      simp [deleteSession, hm, hd sd.ctxId]
    rw [hds]
    exact msGet_msErase_self h

theorem foldDel_preserves_mem (d : Nat → Bool) {p : String × SessionData} :
    ∀ (ids : List String) (s : AIState), p ∈ s.sessions → p.1 ∉ ids →
      p ∈ ((ids.foldl (fun a i => (deleteSession a i d).1) s)).sessions := by
  intro ids
  induction ids with
  | nil => intro s hp _; exact hp
  | cons i rest ih =>
    intro s hp hni
    simp only [List.mem_cons] at hni
    push_neg at hni
    simp only [List.foldl_cons]
    exact ih _ (deleteSession_preserves_mem s i d hp hni.1) hni.2

theorem foldDel_preserves_none (d : Nat → Bool) {k : String} :
    ∀ (ids : List String) (s : AIState), msGet k s.sessions = none →
      msGet k ((ids.foldl (fun a i => (deleteSession a i d).1) s)).sessions
        = none := by
  intro ids
  induction ids with
  | nil => intro s h; exact h
  | cons i rest ih =>
    intro s h
    simp only [List.foldl_cons]
    exact ih _ (deleteSession_preserves_none s i d h)

theorem foldDel_deletes (d : Nat → Bool) (hd : ∀ c, d c = true) {k : String} :
    ∀ (ids : List String) (s : AIState), (s.sessions.map Prod.fst).Nodup →
      k ∈ ids →
      msGet k ((ids.foldl (fun a i => (deleteSession a i d).1) s)).sessions
        = none := by
  intro ids
  induction ids with
  | nil => intro s _ hk; cases hk
  | cons i rest ih =>
    intro s hnd hk
    simp only [List.foldl_cons]
    rcases List.mem_cons.mp hk with hk1 | hk2
    · subst hk1
      exact foldDel_preserves_none d rest _
        (deleteSession_self_none s k d hd hnd)
    · exact ih _ (deleteSession_preserves_nodup s i d hnd) hk2

/-- C5 counterexample: at the concrete aged manager whose context release
throws, the sweep at a 60 minute threshold reports one session reclaimed
while deleting nothing: the stale session old is still live afterwards, so
the returned count is the count selected, not the count reclaimed. -/
theorem reaper_sweep_counts_unreclaimed :
    (cleanupInactiveSessions stAged 60 7200001 dNone).2 = 1
    ∧ (msGet "old"
        (cleanupInactiveSessions stAged 60 7200001 dNone).1.sessions).isSome
        = true := by
  constructor <;> rfl

/-- C5 amended: a sweep selects exactly the live sessions whose
now - lastActivity strictly exceeds the threshold and attempts to delete
each one; individual deletion failures do not abort the sweep; a session at
or under the threshold is never deleted; and the sweep returns the count of
sessions selected for deletion, which is the count reclaimed exactly when
every context release succeeds — a session whose release fails stays in the
store yet is still counted. -/
theorem reaper_sweep (st : AIState) (maxAge now : Nat) (d : Nat → Bool)
    (hnodup : (st.sessions.map Prod.fst).Nodup) :
    ((cleanupInactiveSessions st maxAge now d).2
        = (st.sessions.filter (fun p => isStale now maxAge p.2)).length)
    ∧ (∀ p ∈ st.sessions, isStale now maxAge p.2 = false →
        p ∈ (cleanupInactiveSessions st maxAge now d).1.sessions)
    ∧ ((∀ c, d c = true) → ∀ p ∈ st.sessions,
        isStale now maxAge p.2 = true →
        msGet p.1 (cleanupInactiveSessions st maxAge now d).1.sessions
          = none) := by
  have hcl : (cleanupInactiveSessions st maxAge now d).1
      = ((st.sessions.filter (fun q => isStale now maxAge q.2)).map
            (fun q => q.1)).foldl
          (fun s id => (deleteSession s id d).1) st := rfl
  refine ⟨by simp [cleanupInactiveSessions], ?_, ?_⟩
  · intro p hp hyoung
    have hnotin : p.1 ∉ (st.sessions.filter
        (fun q => isStale now maxAge q.2)).map (fun q => q.1) := by
      intro hmem
      rcases List.mem_map.mp hmem with ⟨q, hqmem, hqk⟩
      have hq := List.mem_filter.mp hqmem
      have hpq : q = p := keys_nodup_inj hnodup hq.1 hp hqk
      rw [hpq, hyoung] at hq
      exact Bool.false_ne_true hq.2
    rw [hcl]
    exact foldDel_preserves_mem d _ st hp hnotin
  · intro hd p hp hstale
    have hk : p.1 ∈ (st.sessions.filter
        (fun q => isStale now maxAge q.2)).map (fun q => q.1) :=
      List.mem_map.mpr ⟨p, List.mem_filter.mpr ⟨hp, hstale⟩, rfl⟩
    rw [hcl]
    exact foldDel_deletes d hd _ st hnodup hk

/-- C5 witness: the sweep theorem at the aged manager, a 60 minute
threshold, sample time 7200001 and releases that succeed. -/
theorem reaper_sweep_witness :
    ((cleanupInactiveSessions stAged 60 7200001 dOK).2
        = (stAged.sessions.filter (fun p => isStale 7200001 60 p.2)).length)
    ∧ (∀ p ∈ stAged.sessions, isStale 7200001 60 p.2 = false →
        p ∈ (cleanupInactiveSessions stAged 60 7200001 dOK).1.sessions)
    ∧ ((∀ c, dOK c = true) → ∀ p ∈ stAged.sessions,
        isStale 7200001 60 p.2 = true →
        msGet p.1 (cleanupInactiveSessions stAged 60 7200001 dOK).1.sessions
          = none) :=
  reaper_sweep stAged 60 7200001 dOK (by decide)

end OpenAuxilium
